import Mathlib

/-!
Verification of the match-reconciliation core of the book-description
enrichment tool.  Strings are modelled as `List Char`; the two near-duplicate
implementations in the repository are embedded side by side: the
multi-candidate flow (the variant whose search returns a ranked candidate
list) and the single-candidate flow (the variant whose search returns at most
one record).  External collaborators (HTTP search, console input) are modelled
as oracles supplied to the processing loop.
-/

/- Python whitespace set used by `str.split()` / `str.strip()` (ASCII scope). -/
def pyIsSpace (c : Char) : Bool :=
  (c == ' ') || (c == '\t') || (c == '\n') || (c == '\r') ||
    (c == Char.ofNat 11) || (c == Char.ofNat 12)

/- Python `str.strip()`: drop leading and trailing whitespace. -/
def py_strip (s : List Char) : List Char :=
  ((s.dropWhile pyIsSpace).reverse.dropWhile pyIsSpace).reverse

/- Drop trailing whitespace only. -/
def rightTrim (s : List Char) : List Char :=
  (s.reverse.dropWhile pyIsSpace).reverse

/- Python `str.split()` with no separator: split on runs of whitespace,
   discarding empty pieces.  The accumulator holds the current word reversed. -/
def pySplitAux : List Char → List Char → List (List Char)
  | [], acc => if acc = [] then [] else [acc.reverse]
  | c :: cs, acc =>
    if pyIsSpace c then
      if acc = [] then pySplitAux cs [] else acc.reverse :: pySplitAux cs []
    else
      pySplitAux cs (c :: acc)

def pySplit (s : List Char) : List (List Char) :=
  pySplitAux s []

/- Python `' '.join(ws)`. -/
def pyJoin : List (List Char) → List Char
  | [] => []
  | [w] => w
  | w :: x :: ws => w ++ ' ' :: pyJoin (x :: ws)

/- Python `str.lower()` (ASCII scope, matching `Char.toLower`). -/
def pyLower (s : List Char) : List Char :=
  s.map Char.toLower

/- Python `a in b` on strings: `begins a b` means `b` starts with `a`,
   `hasSub a b` means `a` occurs contiguously inside `b`. -/
def begins : List Char → List Char → Bool
  | [], _ => true
  | _ :: _, [] => false
  | a :: as, b :: bs => (a == b) && begins as bs

def hasSub (small : List Char) : List Char → Bool
  | [] => begins small []
  | b :: bs => begins small (b :: bs) || hasSub small bs

/- `normalize_title` from the source: empty input gives empty output;
   otherwise keep the part before the first colon, then before the first
   semicolon, lowercase, and `' '.join(·.split())`. -/
def normalize_title (title : List Char) : List Char :=
  if title = [] then []
  else
    pyJoin (pySplit (pyLower ((title.takeWhile (fun c => ¬(c = ':'))).takeWhile
      (fun c => ¬(c = ';')))))

/- `authors_match` from the source: false when either list is empty, else
   case-insensitive substring containment in either direction between the two
   primary (first) authors. -/
def authors_match (authors1 authors2 : List (List Char)) : Bool :=
  match authors1, authors2 with
  | [], _ => false
  | _ :: _, [] => false
  | a1 :: _, a2 :: _ =>
    hasSub (pyLower a1) (pyLower a2) || hasSub (pyLower a2) (pyLower a1)

/- `should_auto_accept` from the source.  The similarity measure
   (`difflib.SequenceMatcher(None, a, b).ratio()`, a Python standard-library
   collaborator external to this repository) is injected as a rational-valued
   function `ratio`; the source compares it against the literal `0.9`. -/
def should_auto_accept (ratio : List Char → List Char → ℚ)
    (original_title original_author match_title : List Char)
    (match_authors : List (List Char)) : Bool :=
  if normalize_title original_title = normalize_title match_title then true
  else if original_author ≠ [] ∧ match_authors ≠ [] then
    if (9 : ℚ) / 10 < ratio (normalize_title original_title)
          (normalize_title match_title) ∧
        authors_match [original_author] match_authors = true then true
    else false
  else false

/- A trivial similarity measure used to instantiate theorems about
   `should_auto_accept` at concrete inputs. -/
def ratio0 : List Char → List Char → ℚ :=
  fun a b => if a = b then 1 else 0

/- ASCII apostrophe, spliced into note literals. -/
def apos : Char := Char.ofNat 39

/- The "no description available" placeholder note literal written by the
   multi-candidate flow (transcribed from the source assignment). -/
def placeholder_note : List Char :=
  ("<div class=\"comment\">\n<p>This book needs an abstract or excerpt, and it doesn").data
    ++ [apos]
    ++ ("t have a Google Books description available to use. For a customized abstract or excerpt, add a note to the item in the \n<a href=\"github.com/\x7b\x7bgithub\x7d\x7d/\x7b\x7bBASE_URL\x7d\x7d\">Zotero library</a></p>\n</div>").data

/- The Google-Books attribution footer appended after an accepted description
   in the multi-candidate flow (transcribed from the source assignment). -/
def attribution_footer : List Char :=
  ("\n\n<div class=\"comment\">\n<p>This description was automatically added from \n<a href=\"https://books.google.com/books?id=JK8VXK7QMNAC\">Google Books</a>. \nFor a customized abstract or excerpt, add a note to the item in the \n<a href=\"github.com/\x7b\x7bgithub\x7d\x7d/\x7b\x7bBASE_URL\x7d\x7d\">Zotero library</a></p>\n</div>").data

/- Modelled from the spec: the placeholder-note template given literally in
   the specification's external-interfaces section. -/
def spec_placeholder_template : List Char :=
  ("<div class=\"comment\">\n<p>This book needs an abstract or excerpt, and it doesn").data
    ++ [apos]
    ++ ("t have a Google Books description available to use. For a customized abstract or excerpt, add a note to the item in the \n<a href=\"github.com/\x7b\x7bgithub\x7d\x7d/\x7b\x7bBASE_URL\x7d\x7d\">Zotero library</a></p>\n</div>").data

/- Modelled from the spec: the attribution-footer template given literally in
   the specification's external-interfaces section. -/
def spec_attribution_template : List Char :=
  ("\n\n<div class=\"comment\">\n<p>This description was automatically added from \n<a href=\"https://books.google.com/books?id=JK8VXK7QMNAC\">Google Books</a>. \nFor a customized abstract or excerpt, add a note to the item in the \n<a href=\"github.com/\x7b\x7bgithub\x7d\x7d/\x7b\x7bBASE_URL\x7d\x7d\">Zotero library</a></p>\n</div>").data

/- A candidate metadata record as assembled from one search result item. -/
structure Candidate where
  title : List Char
  description : List Char
  authors : List (List Char)
  year : List Char
  publisher : List Char
  pageCount : List Char
deriving DecidableEq

/- A catalog row.  `Title`, `Author`, `Notes` are the fields the core reads;
   every other CSV column is opaque pass-through data kept in `extra`. -/
structure Row where
  Title : List Char
  Author : List Char
  Notes : List Char
  extra : List (List Char × List Char)
deriving DecidableEq

/- The search collaborator.  The body of `search_google_books` performs the
   HTTP request and JSON parsing inside a `try` block; its outcome is modelled
   as `Except`: `error` is any exception raised inside the block, `ok` is the
   parsed candidate list.  The multi-candidate variant returns the list
   (empty on error or on no items); the single-candidate variant returns only
   the first item, `none` on error or on no items. -/
def search_google_books_multi :
    Except (List Char) (List Candidate) → List Candidate
  | Except.error _ => []
  | Except.ok items => items

def search_google_books_single :
    Except (List Char) (List Candidate) → Option Candidate
  | Except.error _ => none
  | Except.ok items => items.head?

/- The console message printed by the `except` handler of the search call
   (in both variants): an API-error line naming the title and the exception. -/
def search_log (title : List Char) :
    Except (List Char) (List Candidate) → List (List Char)
  | Except.error e =>
      [("API error for ").data ++ [apos] ++ title ++ [apos] ++ (": ").data ++ e]
  | Except.ok _ => []

/- User interaction for the multi-candidate review loop: per candidate the
   operator eventually enters one of the three valid answers (the inner
   `while` re-prompts until the answer is valid, so only the valid answer is
   modelled). -/
inductive Choice
  | yes
  | next
  | skip
deriving DecidableEq

/- `prompt_for_match` from the multi-candidate variant: walk the candidates
   in order; `yes` selects the current one, `skip` abandons, `next` advances;
   exhausting the list abandons. -/
def prompt_for_match : List Candidate → (Nat → Choice) → Nat → Option Candidate
  | [], _, _ => none
  | m :: ms, f, i =>
    match f i with
    | Choice.yes => some m
    | Choice.skip => none
    | Choice.next => prompt_for_match ms f (i + 1)

/- Terminal decision reached for a processed row. -/
inductive Decision
  | autoAccepted
  | userAccepted
  | skipped
  | noResults
deriving DecidableEq

/- Observable events of a run: a terminal decision for the row at an index,
   and a checkpoint save carrying the complete row set written to the output
   file at that moment. -/
inductive Ev
  | decided (i : Nat) (d : Decision)
  | saved (rows : List Row)
deriving DecidableEq

def Ev.isSave : Ev → Bool
  | Ev.saved _ => true
  | Ev.decided _ _ => false

/- Processing state: the in-memory row set, the three counters and the event
   trace. -/
structure PState where
  rows : List Row
  updated : Nat
  noMatch : Nat
  autoAccepted : Nat
  events : List Ev
deriving DecidableEq

/- One iteration of the multi-candidate processing loop, for the row at
   index `i`.  `searchO i` is the outcome of the search call for this row and
   `userO i` the operator's answers for this row's review loop.  Mirrors the
   source: skip rows whose stripped `Notes` is non-empty, skip rows with a
   blank title, on empty results write the placeholder note and `continue`
   (no save), otherwise score the first candidate; an auto-accept or a
   user-selected candidate gets the description plus the attribution footer,
   an abandoned review gets the placeholder note, and each of those three
   outcomes is followed by a full-row-set checkpoint save. -/
def processBookMulti (ratio : List Char → List Char → ℚ)
    (searchO : Nat → Except (List Char) (List Candidate))
    (userO : Nat → Nat → Choice) (st : PState) (i : Nat) : PState :=
  match st.rows[i]? with
  | none => st
  | some book =>
    if py_strip book.Notes ≠ [] then st
    else if py_strip book.Title = [] then st
    else
      match search_google_books_multi (searchO i) with
      | [] =>
        { st with
          rows := st.rows.set i { book with Notes := placeholder_note },
          noMatch := st.noMatch + 1,
          events := st.events ++ [Ev.decided i Decision.noResults] }
      | first :: rest =>
        if should_auto_accept ratio (py_strip book.Title) (py_strip book.Author)
            first.title first.authors then
          { st with
            rows := st.rows.set i
              { book with Notes := first.description ++ attribution_footer },
            updated := st.updated + 1,
            autoAccepted := st.autoAccepted + 1,
            events := st.events ++
              [Ev.decided i Decision.autoAccepted,
               Ev.saved (st.rows.set i
                 { book with Notes := first.description ++ attribution_footer })] }
        else
          match prompt_for_match (first :: rest) (userO i) 0 with
          | some sel =>
            { st with
              rows := st.rows.set i
                { book with Notes := sel.description ++ attribution_footer },
              updated := st.updated + 1,
              events := st.events ++
                [Ev.decided i Decision.userAccepted,
                 Ev.saved (st.rows.set i
                   { book with Notes := sel.description ++ attribution_footer })] }
          | none =>
            { st with
              rows := st.rows.set i { book with Notes := placeholder_note },
              noMatch := st.noMatch + 1,
              events := st.events ++
                [Ev.decided i Decision.skipped,
                 Ev.saved (st.rows.set i
                   { book with Notes := placeholder_note })] }

/- One iteration of the single-candidate processing loop.  Differences from
   the multi-candidate variant, mirrored from the source: no results writes
   nothing (only the counter) and `continue`s without saving; an accepted
   description is written bare, without the attribution footer; the prompt is
   a single yes/no question whose raw console answer is lowered, stripped and
   compared against the two accepting words; a declined candidate writes
   nothing but still saves. -/
def processBookSingle (ratio : List Char → List Char → ℚ)
    (searchO : Nat → Except (List Char) (List Candidate))
    (userO : Nat → List Char) (st : PState) (i : Nat) : PState :=
  match st.rows[i]? with
  | none => st
  | some book =>
    if py_strip book.Notes ≠ [] then st
    else if py_strip book.Title = [] then st
    else
      match search_google_books_single (searchO i) with
      | none =>
        { st with
          noMatch := st.noMatch + 1,
          events := st.events ++ [Ev.decided i Decision.noResults] }
      | some best =>
        if should_auto_accept ratio (py_strip book.Title) (py_strip book.Author)
            best.title best.authors then
          { st with
            rows := st.rows.set i { book with Notes := best.description },
            updated := st.updated + 1,
            autoAccepted := st.autoAccepted + 1,
            events := st.events ++
              [Ev.decided i Decision.autoAccepted,
               Ev.saved (st.rows.set i { book with Notes := best.description })] }
        else if py_strip (pyLower (userO i)) = ("y").data ∨
            py_strip (pyLower (userO i)) = ("yes").data then
          { st with
            rows := st.rows.set i { book with Notes := best.description },
            updated := st.updated + 1,
            events := st.events ++
              [Ev.decided i Decision.userAccepted,
               Ev.saved (st.rows.set i { book with Notes := best.description })] }
        else
          { st with
            noMatch := st.noMatch + 1,
            events := st.events ++
              [Ev.decided i Decision.skipped, Ev.saved st.rows] }

/- The state at the start of a run. -/
def initState (books : List Row) : PState :=
  { rows := books, updated := 0, noMatch := 0, autoAccepted := 0, events := [] }

/- Full processing run over all rows, in order, for each variant. -/
def process_books_multi (ratio : List Char → List Char → ℚ)
    (searchO : Nat → Except (List Char) (List Candidate))
    (userO : Nat → Nat → Choice) (books : List Row) : PState :=
  (List.range books.length).foldl (processBookMulti ratio searchO userO)
    (initState books)

def process_books_single (ratio : List Char → List Char → ℚ)
    (searchO : Nat → Except (List Char) (List Candidate))
    (userO : Nat → List Char) (books : List Row) : PState :=
  (List.range books.length).foldl (processBookSingle ratio searchO userO)
    (initState books)

/- Modelled from the spec: collapse every run of whitespace into a single
   space character (`b` records whether we are inside a run whose single
   space has already been emitted). -/
def collapseAux : Bool → List Char → List Char
  | _, [] => []
  | inRun, c :: cs =>
    if pyIsSpace c then
      if inRun then collapseAux true cs else ' ' :: collapseAux true cs
    else
      c :: collapseAux false cs

/- Modelled from the spec: the title-normalization contract stated in the
   specification — empty input gives the empty string, otherwise keep the
   prefix before the first colon or semicolon, lowercase it, collapse every
   whitespace run to a single space and trim both ends. -/
def normalizeSpec (title : List Char) : List Char :=
  if title = [] then []
  else
    py_strip (collapseAux false
      (pyLower (title.takeWhile (fun c => ¬(c = ':' ∨ c = ';')))))

/- Concrete fixtures used to evaluate the processing loops at specific
   inputs. -/
def rowA : Row :=
  { Title := ("A").data, Author := [], Notes := [], extra := [] }

def rowWsNotes : Row :=
  { Title := ("A").data, Author := [], Notes := [' '], extra := [] }

def duneRow : Row :=
  { Title := ("Dune").data, Author := ("Frank Herbert").data, Notes := [],
    extra := [] }

def duneCand : Candidate :=
  { title := ("Dune").data, description := ("D").data,
    authors := [("Frank Herbert").data], year := [], publisher := [],
    pageCount := [] }

def emptyDescCand : Candidate :=
  { title := ("Dune").data, description := [],
    authors := [("Frank Herbert").data], year := [], publisher := [],
    pageCount := [] }

def searchNone : Nat → Except (List Char) (List Candidate) :=
  fun _ => Except.ok []

def searchDune : Nat → Except (List Char) (List Candidate) :=
  fun _ => Except.ok [duneCand]

def searchEmptyDesc : Nat → Except (List Char) (List Candidate) :=
  fun _ => Except.ok [emptyDescCand]

def userSkip : Nat → Nat → Choice :=
  fun _ _ => Choice.skip

def userNo : Nat → List Char :=
  fun _ => []

/- A row whose Notes field is non-blank at load time. -/
def rowX : Row :=
  { Title := ("A").data, Author := [], Notes := ("x").data, extra := [] }

/- An erroring search oracle. -/
def searchBoom : Nat → Except (List Char) (List Candidate) :=
  fun _ => Except.error ("boom").data

/- A one-row multi-candidate run whose search returns no results. -/
def runNoResultsMulti : PState :=
  process_books_multi ratio0 searchNone userSkip [rowA]

/- A one-row single-candidate run whose search returns no results. -/
def runNoResultsSingle : PState :=
  process_books_single ratio0 searchNone userNo [rowA]

/- A one-row single-candidate run that auto-accepts a Dune candidate. -/
def runDuneSingle : PState :=
  process_books_single ratio0 searchDune userNo [duneRow]

/- A one-row multi-candidate run on a row whose Notes is a single space. -/
def runWsNotesMulti : PState :=
  process_books_multi ratio0 searchNone userSkip [rowWsNotes]

/- One-row runs that auto-accept a candidate with an empty description. -/
def runEmptyDescMulti : PState :=
  process_books_multi ratio0 searchEmptyDesc userSkip [duneRow]

def runEmptyDescSingle : PState :=
  process_books_single ratio0 searchEmptyDesc userNo [duneRow]

/- A second (resume) pass of the single-candidate flow over the rows left by
   the first empty-description run. -/
def runEmptyDescSingleResume : PState :=
  process_books_single ratio0 searchEmptyDesc userNo runEmptyDescSingle.rows

/-- Claim C1: `should_auto_accept` returns true iff either the normalized
titles are equal (tier 1), or the original author and candidate author list
are non-empty, the similarity ratio of the normalized titles is strictly
greater than 0.9 and the primary authors match (tier 2); identical-after-
normalization titles always yield true, and similarity at most 0.9 always
yields false.  The similarity measure is the injected external collaborator,
assumed (as the spec states) to give ratio 1 on identical strings. -/
theorem claim_C1 (ratio : List Char → List Char → ℚ)
    (ot oa ct : List Char) (cas : List (List Char))
    (hid : ratio (normalize_title ot) (normalize_title ot) = 1) :
    (should_auto_accept ratio ot oa ct cas = true ↔
      normalize_title ot = normalize_title ct ∨
        (oa ≠ [] ∧ cas ≠ [] ∧
          (9 : ℚ) / 10 < ratio (normalize_title ot) (normalize_title ct) ∧
          authors_match [oa] cas = true)) ∧
    (normalize_title ot = normalize_title ct →
      should_auto_accept ratio ot oa ct cas = true) ∧
    (ratio (normalize_title ot) (normalize_title ct) ≤ (9 : Rat) / 10 →
      should_auto_accept ratio ot oa ct cas = false) := by
  have main : should_auto_accept ratio ot oa ct cas = true ↔
      normalize_title ot = normalize_title ct ∨
        (oa ≠ [] ∧ cas ≠ [] ∧
          (9 : ℚ) / 10 < ratio (normalize_title ot) (normalize_title ct) ∧
          authors_match [oa] cas = true) := by
    unfold should_auto_accept
    split_ifs with h1 h2 h3
    · simp [h1]
    · simp only [true_iff]
      exact Or.inr ⟨h2.1, h2.2, h3.1, h3.2⟩
    · constructor
      · intro h; cases h
      · rintro (h | ⟨_, _, hr, ha⟩)
        · exact absurd h h1
        · exact absurd ⟨hr, ha⟩ h3
    · constructor
      · intro h; cases h
      · rintro (h | ⟨ha, hb, _, _⟩)
        · exact absurd h h1
        · exact absurd ⟨ha, hb⟩ h2
  refine ⟨main, ?_, ?_⟩
  · intro h
    exact main.mpr (Or.inl h)
  · intro hle
    rw [Bool.eq_false_iff, Ne, main]
    rintro (h | ⟨_, _, hr, _⟩)
    · rw [← h] at hle
      rw [hid] at hle
      norm_num at hle
    · exact absurd hr (not_lt.mpr hle)

/-- Claim C1 witness: the theorem instantiated with the trivial similarity
measure and concrete titles and authors. -/
theorem claim_C1_witness :
    ratio0 (normalize_title ("Dune").data) (normalize_title ("Dune").data) = 1 ∧
    ((should_auto_accept ratio0 ("Dune").data ("Frank Herbert").data
        ("Dune; a novel").data [("Frank Herbert").data] = true ↔
      normalize_title ("Dune").data = normalize_title ("Dune; a novel").data ∨
        (("Frank Herbert").data ≠ [] ∧ [("Frank Herbert").data] ≠ [] ∧
          (9 : ℚ) / 10 < ratio0 (normalize_title ("Dune").data)
            (normalize_title ("Dune; a novel").data) ∧
          authors_match [("Frank Herbert").data] [("Frank Herbert").data] = true)) ∧
    (normalize_title ("Dune").data = normalize_title ("Dune; a novel").data →
      should_auto_accept ratio0 ("Dune").data ("Frank Herbert").data
        ("Dune; a novel").data [("Frank Herbert").data] = true) ∧
    (ratio0 (normalize_title ("Dune").data)
        (normalize_title ("Dune; a novel").data) ≤ (9 : Rat) / 10 →
      should_auto_accept ratio0 ("Dune").data ("Frank Herbert").data
        ("Dune; a novel").data [("Frank Herbert").data] = false)) :=
  ⟨by simp [ratio0],
   claim_C1 ratio0 ("Dune").data ("Frank Herbert").data ("Dune; a novel").data
     [("Frank Herbert").data] (by simp [ratio0])⟩

/- `begins a b` is exactly "b starts with a". -/
theorem begins_iff (a : List Char) : ∀ b, begins a b = true ↔ ∃ v, b = a ++ v := by
  induction a with
  | nil => intro b; simp [begins]
  | cons x xs ih =>
    intro b
    cases b with
    | nil =>
      simp [begins]
    | cons y ys =>
      simp only [begins, Bool.and_eq_true, beq_iff_eq, ih, List.cons_append,
        List.cons.injEq]
      constructor
      · rintro ⟨rfl, v, rfl⟩
        exact ⟨v, rfl, rfl⟩
      · rintro ⟨v, rfl, rfl⟩
        exact ⟨rfl, v, rfl⟩

/- `hasSub a b` is exactly "a occurs contiguously inside b". -/
theorem hasSub_iff (a : List Char) : ∀ b, hasSub a b = true ↔ ∃ u v, b = u ++ a ++ v := by
  intro b
  induction b with
  | nil =>
    rw [hasSub, begins_iff]
    constructor
    · rintro ⟨v, h⟩
      exact ⟨[], v, by simpa using h⟩
    · rintro ⟨u, v, h⟩
      have h' : u ++ a ++ v = [] := h.symm
      simp only [List.append_eq_nil] at h'
      exact ⟨v, by simp [h'.1.2, h'.2]⟩
  | cons c cs ih =>
    rw [hasSub]
    simp only [Bool.or_eq_true, begins_iff, ih]
    constructor
    · rintro (⟨v, hv⟩ | ⟨u, v, rfl⟩)
      · exact ⟨[], v, by simp [hv]⟩
      · exact ⟨c :: u, v, rfl⟩
    · rintro ⟨u, v, h⟩
      cases u with
      | nil =>
        left
        exact ⟨v, by simpa using h⟩
      | cons u0 us =>
        right
        rw [List.cons_append, List.cons_append] at h
        injection h with h1 h2
        exact ⟨us, v, h2⟩

/-- Claim C2 counterexample: the claim asserts
`authorsMatch("Jane Smith", "J. Smith")` is true, but neither lowercased
primary author is a substring of the other, so the code returns false. -/
theorem claim_C2_cex :
    authors_match [("Jane Smith").data] [("J. Smith").data] = false := by
  decide

/-- Claim C2 (amended): `authors_match` compares only the first author of
each side, case-insensitively; it is true exactly when either lowercased
primary author occurs as a contiguous substring of the other, and false
whenever either author list is empty.  `authorsMatch("Jane Smith",
"J. Smith")` is false (neither is a substring of the other), while e.g.
`authorsMatch("Smith", "Jane Smith")` is true. -/
theorem claim_C2_thm :
    (∀ l, authors_match [] l = false) ∧
    (∀ l, authors_match l [] = false) ∧
    (∀ a1 r1 a2 r2 r1' r2',
      authors_match (a1 :: r1) (a2 :: r2) = authors_match (a1 :: r1') (a2 :: r2')) ∧
    (∀ a1 r1 a2 r2,
      authors_match (a1 :: r1) (a2 :: r2) = true ↔
        (∃ u v, pyLower a2 = u ++ pyLower a1 ++ v) ∨
        (∃ u v, pyLower a1 = u ++ pyLower a2 ++ v)) ∧
    authors_match [("Smith").data] [("Jane Smith").data] = true ∧
    authors_match [("Jane Smith").data] [("J. Smith").data] = false := by
  refine ⟨?_, ?_, ?_, ?_, by decide, by decide⟩
  · intro l
    cases l <;> rfl
  · intro l
    cases l <;> rfl
  · intro a1 r1 a2 r2 r1' r2'
    rfl
  · intro a1 r1 a2 r2
    simp only [authors_match, Bool.or_eq_true, hasSub_iff]

set_option maxRecDepth 8000 in
/-- Claim C3 counterexample: a one-row run reaching the `NoResults` terminal
decision performs no checkpoint save at all (the source `continue`s past the
save), even though the placeholder note was written into the in-memory row. -/
theorem claim_C3_cex :
    runNoResultsMulti.events = [Ev.decided 0 Decision.noResults] ∧
    runNoResultsMulti.events.filter Ev.isSave = [] ∧
    runNoResultsMulti.rows.map Row.Notes = [placeholder_note] := by
  decide

/-- Claim C3 (amended): after an `AutoAccepted`, `UserAccepted` or `Skipped`
terminal decision the entire in-memory row set is written out before the next
row is processed, but a `NoResults` decision skips this checkpoint save (in
both variants); a row step either leaves the trace unchanged (row skipped),
appends a lone `NoResults` decision, or appends a non-`NoResults` decision
immediately followed by a save of the complete current row set. -/
theorem claim_C3_thm (ratio : List Char → List Char → ℚ)
    (searchO : Nat → Except (List Char) (List Candidate))
    (userO : Nat → Nat → Choice) (userOs : Nat → List Char)
    (st : PState) (i : Nat) :
    ((processBookMulti ratio searchO userO st i).events = st.events ∨
     (processBookMulti ratio searchO userO st i).events =
        st.events ++ [Ev.decided i Decision.noResults] ∨
     (∃ d rows', d ≠ Decision.noResults ∧
        (processBookMulti ratio searchO userO st i).events =
          st.events ++ [Ev.decided i d, Ev.saved rows'] ∧
        (processBookMulti ratio searchO userO st i).rows = rows')) ∧
    ((processBookSingle ratio searchO userOs st i).events = st.events ∨
     (processBookSingle ratio searchO userOs st i).events =
        st.events ++ [Ev.decided i Decision.noResults] ∨
     (∃ d rows', d ≠ Decision.noResults ∧
        (processBookSingle ratio searchO userOs st i).events =
          st.events ++ [Ev.decided i d, Ev.saved rows'] ∧
        (processBookSingle ratio searchO userOs st i).rows = rows')) := by
  constructor
  · unfold processBookMulti
    split
    · exact Or.inl rfl
    · split
      · exact Or.inl rfl
      · split
        · exact Or.inl rfl
        · split
          · exact Or.inr (Or.inl rfl)
          · split
            · exact Or.inr (Or.inr
                ⟨Decision.autoAccepted, _, by decide, rfl, rfl⟩)
            · split
              · exact Or.inr (Or.inr
                  ⟨Decision.userAccepted, _, by decide, rfl, rfl⟩)
              · exact Or.inr (Or.inr
                  ⟨Decision.skipped, _, by decide, rfl, rfl⟩)
  · unfold processBookSingle
    split
    · exact Or.inl rfl
    · split
      · exact Or.inl rfl
      · split
        · exact Or.inl rfl
        · split
          · exact Or.inr (Or.inl rfl)
          · split
            · exact Or.inr (Or.inr
                ⟨Decision.autoAccepted, _, by decide, rfl, rfl⟩)
            · split
              · exact Or.inr (Or.inr
                  ⟨Decision.userAccepted, _, by decide, rfl, rfl⟩)
              · exact Or.inr (Or.inr
                  ⟨Decision.skipped, _, by decide, rfl, rfl⟩)

set_option maxRecDepth 8000 in
/-- Claim C4 counterexample: in the single-candidate variant a row whose
search yields zero candidates is counted as no-match but its `Notes` field is
left empty — it is not set to the placeholder-note literal. -/
theorem claim_C4_cex :
    runNoResultsSingle.rows.map Row.Notes = [[]] ∧
    runNoResultsSingle.noMatch = 1 ∧
    placeholder_note ≠ [] := by
  decide

/-- Claim C4 (amended): in the multi-candidate variant, every row whose
search yields zero candidates (including search errors recovered as zero
results) has its `Notes` set to exactly the placeholder-note literal — which
is byte-for-byte the template in the spec — and is counted as no-match; in
the single-candidate variant the row is only counted as no-match and its
`Notes` is left unchanged. -/
theorem claim_C4_thm (ratio : List Char → List Char → ℚ)
    (searchO searchO2 : Nat → Except (List Char) (List Candidate))
    (userO : Nat → Nat → Choice) (userOs : Nat → List Char)
    (st : PState) (i : Nat) (book : Row)
    (hb : st.rows[i]? = some book) (hn : py_strip book.Notes = [])
    (ht : py_strip book.Title ≠ [])
    (hs : search_google_books_multi (searchO i) = [])
    (hs2 : search_google_books_single (searchO2 i) = none) :
    (processBookMulti ratio searchO userO st i).rows =
      st.rows.set i { book with Notes := placeholder_note } ∧
    (processBookMulti ratio searchO userO st i).noMatch = st.noMatch + 1 ∧
    (processBookMulti ratio searchO userO st i).updated = st.updated ∧
    (processBookMulti ratio searchO userO st i).autoAccepted = st.autoAccepted ∧
    placeholder_note = spec_placeholder_template ∧
    (processBookSingle ratio searchO2 userOs st i).rows = st.rows ∧
    (processBookSingle ratio searchO2 userOs st i).noMatch = st.noMatch + 1 := by
  unfold processBookMulti processBookSingle
  rw [hb, hs, hs2]
  refine ⟨by simp [hn, ht], by simp [hn, ht], by simp [hn, ht],
    by simp [hn, ht], rfl, by simp [hn, ht], by simp [hn, ht]⟩

/-- Claim C4 witness: the amended theorem instantiated at a concrete
one-row state with an erroring search (multi) and an empty-result search
(single). -/
theorem claim_C4_witness :
    ({ rows := [rowA], updated := 0, noMatch := 0, autoAccepted := 0,
        events := [] } : PState).rows[0]? = some rowA ∧
    py_strip rowA.Notes = [] ∧
    py_strip rowA.Title ≠ [] ∧
    search_google_books_multi ((fun _ => Except.error ("boom").data) 0) = [] ∧
    search_google_books_single (searchNone 0) = none ∧
    ((processBookMulti ratio0 (fun _ => Except.error ("boom").data) userSkip
        { rows := [rowA], updated := 0, noMatch := 0, autoAccepted := 0,
          events := [] } 0).rows =
      ([rowA].set 0 { rowA with Notes := placeholder_note }) ∧
    (processBookMulti ratio0 (fun _ => Except.error ("boom").data) userSkip
        { rows := [rowA], updated := 0, noMatch := 0, autoAccepted := 0,
          events := [] } 0).noMatch = 0 + 1 ∧
    (processBookMulti ratio0 (fun _ => Except.error ("boom").data) userSkip
        { rows := [rowA], updated := 0, noMatch := 0, autoAccepted := 0,
          events := [] } 0).updated = 0 ∧
    (processBookMulti ratio0 (fun _ => Except.error ("boom").data) userSkip
        { rows := [rowA], updated := 0, noMatch := 0, autoAccepted := 0,
          events := [] } 0).autoAccepted = 0 ∧
    placeholder_note = spec_placeholder_template ∧
    (processBookSingle ratio0 searchNone userNo
        { rows := [rowA], updated := 0, noMatch := 0, autoAccepted := 0,
          events := [] } 0).rows = [rowA] ∧
    (processBookSingle ratio0 searchNone userNo
        { rows := [rowA], updated := 0, noMatch := 0, autoAccepted := 0,
          events := [] } 0).noMatch = 0 + 1) :=
  ⟨rfl, rfl, by decide, rfl, rfl,
   claim_C4_thm ratio0 (fun _ => Except.error ("boom").data) searchNone
     userSkip userNo
     { rows := [rowA], updated := 0, noMatch := 0, autoAccepted := 0,
       events := [] } 0 rowA rfl rfl (by decide) rfl rfl⟩

set_option maxRecDepth 8000 in
/-- Claim C5 counterexample: in the single-candidate variant an auto-accepted
candidate with description `"D"` leaves the row's `Notes` as exactly `"D"` —
the Google-Books attribution footer is not appended — although the row is
counted as updated and auto-accepted. -/
theorem claim_C5_cex :
    runDuneSingle.rows.map Row.Notes = [("D").data] ∧
    runDuneSingle.updated = 1 ∧
    runDuneSingle.autoAccepted = 1 ∧
    ("D").data ≠ ("D").data ++ attribution_footer := by
  decide

/-- Claim C5 (amended): in the multi-candidate variant, every accepted
candidate (auto-accepted by the scorer, or selected interactively) has the
row's `Notes` set to the candidate's description followed by the literal
Google-Books attribution footer — byte-for-byte the spec's template, which
begins with a blank line — and the row is counted as updated (and as
auto-accepted in the auto case); in the single-candidate variant, every
accepted candidate (auto-accepted, or confirmed at the yes/no prompt) has the
bare description written without the footer, with the same counting. -/
theorem claim_C5_thm (ratio : List Char → List Char → ℚ)
    (searchO : Nat → Except (List Char) (List Candidate))
    (userO : Nat → Nat → Choice)
    (searchO2 : Nat → Except (List Char) (List Candidate))
    (userOs : Nat → List Char) (st : PState) (i : Nat) (book : Row)
    (first sel best : Candidate) (rest : List Candidate)
    (hb : st.rows[i]? = some book) (hn : py_strip book.Notes = [])
    (ht : py_strip book.Title ≠ [])
    (hs : search_google_books_multi (searchO i) = first :: rest)
    (hs2 : search_google_books_single (searchO2 i) = some best) :
    (should_auto_accept ratio (py_strip book.Title) (py_strip book.Author)
        first.title first.authors = true →
      (processBookMulti ratio searchO userO st i).rows =
        st.rows.set i
          { book with Notes := first.description ++ attribution_footer } ∧
      (processBookMulti ratio searchO userO st i).updated = st.updated + 1 ∧
      (processBookMulti ratio searchO userO st i).autoAccepted =
        st.autoAccepted + 1) ∧
    (should_auto_accept ratio (py_strip book.Title) (py_strip book.Author)
        first.title first.authors = false →
      prompt_for_match (first :: rest) (userO i) 0 = some sel →
      (processBookMulti ratio searchO userO st i).rows =
        st.rows.set i
          { book with Notes := sel.description ++ attribution_footer } ∧
      (processBookMulti ratio searchO userO st i).updated = st.updated + 1 ∧
      (processBookMulti ratio searchO userO st i).autoAccepted =
        st.autoAccepted) ∧
    attribution_footer = spec_attribution_template ∧
    attribution_footer.take 2 = ['\n', '\n'] ∧
    (should_auto_accept ratio (py_strip book.Title) (py_strip book.Author)
        best.title best.authors = true →
      (processBookSingle ratio searchO2 userOs st i).rows =
        st.rows.set i { book with Notes := best.description } ∧
      (processBookSingle ratio searchO2 userOs st i).updated =
        st.updated + 1 ∧
      (processBookSingle ratio searchO2 userOs st i).autoAccepted =
        st.autoAccepted + 1) ∧
    (should_auto_accept ratio (py_strip book.Title) (py_strip book.Author)
        best.title best.authors = false →
      (py_strip (pyLower (userOs i)) = ("y").data ∨
        py_strip (pyLower (userOs i)) = ("yes").data) →
      (processBookSingle ratio searchO2 userOs st i).rows =
        st.rows.set i { book with Notes := best.description } ∧
      (processBookSingle ratio searchO2 userOs st i).updated =
        st.updated + 1 ∧
      (processBookSingle ratio searchO2 userOs st i).autoAccepted =
        st.autoAccepted) := by
  refine ⟨?_, ?_, rfl, by decide, ?_, ?_⟩
  · intro hacc
    unfold processBookMulti
    rw [hb, hs]
    exact ⟨by simp [hn, ht, hacc], by simp [hn, ht, hacc],
      by simp [hn, ht, hacc]⟩
  · intro hacc hp
    unfold processBookMulti
    rw [hb, hs]
    exact ⟨by simp [hn, ht, hacc, hp], by simp [hn, ht, hacc, hp],
      by simp [hn, ht, hacc, hp]⟩
  · intro hacc
    unfold processBookSingle
    rw [hb, hs2]
    exact ⟨by simp [hn, ht, hacc], by simp [hn, ht, hacc],
      by simp [hn, ht, hacc]⟩
  · intro hacc hresp
    unfold processBookSingle
    rw [hb, hs2]
    exact ⟨by simp [hn, ht, hacc, hresp], by simp [hn, ht, hacc, hresp],
      by simp [hn, ht, hacc, hresp]⟩

set_option maxRecDepth 8000 in
/-- Claim C5 witness: the amended theorem instantiated at a concrete one-row
state auto-accepting the Dune candidate in both variants. -/
theorem claim_C5_witness :
    ({ rows := [duneRow], updated := 0, noMatch := 0, autoAccepted := 0,
        events := [] } : PState).rows[0]? = some duneRow ∧
    py_strip duneRow.Notes = [] ∧
    py_strip duneRow.Title ≠ [] ∧
    search_google_books_multi (searchDune 0) = duneCand :: [] ∧
    search_google_books_single (searchDune 0) = some duneCand ∧
    ((should_auto_accept ratio0 (py_strip duneRow.Title)
        (py_strip duneRow.Author) duneCand.title duneCand.authors = true →
      (processBookMulti ratio0 searchDune userSkip
          { rows := [duneRow], updated := 0, noMatch := 0, autoAccepted := 0,
            events := [] } 0).rows =
        [duneRow].set 0
          { duneRow with Notes := duneCand.description ++ attribution_footer } ∧
      (processBookMulti ratio0 searchDune userSkip
          { rows := [duneRow], updated := 0, noMatch := 0, autoAccepted := 0,
            events := [] } 0).updated = 0 + 1 ∧
      (processBookMulti ratio0 searchDune userSkip
          { rows := [duneRow], updated := 0, noMatch := 0, autoAccepted := 0,
            events := [] } 0).autoAccepted = 0 + 1) ∧
    (should_auto_accept ratio0 (py_strip duneRow.Title)
        (py_strip duneRow.Author) duneCand.title duneCand.authors = false →
      prompt_for_match (duneCand :: []) (userSkip 0) 0 = some duneCand →
      (processBookMulti ratio0 searchDune userSkip
          { rows := [duneRow], updated := 0, noMatch := 0, autoAccepted := 0,
            events := [] } 0).rows =
        [duneRow].set 0
          { duneRow with Notes := duneCand.description ++ attribution_footer } ∧
      (processBookMulti ratio0 searchDune userSkip
          { rows := [duneRow], updated := 0, noMatch := 0, autoAccepted := 0,
            events := [] } 0).updated = 0 + 1 ∧
      (processBookMulti ratio0 searchDune userSkip
          { rows := [duneRow], updated := 0, noMatch := 0, autoAccepted := 0,
            events := [] } 0).autoAccepted = 0) ∧
    attribution_footer = spec_attribution_template ∧
    attribution_footer.take 2 = ['\n', '\n'] ∧
    (should_auto_accept ratio0 (py_strip duneRow.Title)
        (py_strip duneRow.Author) duneCand.title duneCand.authors = true →
      (processBookSingle ratio0 searchDune userNo
          { rows := [duneRow], updated := 0, noMatch := 0, autoAccepted := 0,
            events := [] } 0).rows =
        [duneRow].set 0 { duneRow with Notes := duneCand.description } ∧
      (processBookSingle ratio0 searchDune userNo
          { rows := [duneRow], updated := 0, noMatch := 0, autoAccepted := 0,
            events := [] } 0).updated = 0 + 1 ∧
      (processBookSingle ratio0 searchDune userNo
          { rows := [duneRow], updated := 0, noMatch := 0, autoAccepted := 0,
            events := [] } 0).autoAccepted = 0 + 1) ∧
    (should_auto_accept ratio0 (py_strip duneRow.Title)
        (py_strip duneRow.Author) duneCand.title duneCand.authors = false →
      (py_strip (pyLower (userNo 0)) = ("y").data ∨
        py_strip (pyLower (userNo 0)) = ("yes").data) →
      (processBookSingle ratio0 searchDune userNo
          { rows := [duneRow], updated := 0, noMatch := 0, autoAccepted := 0,
            events := [] } 0).rows =
        [duneRow].set 0 { duneRow with Notes := duneCand.description } ∧
      (processBookSingle ratio0 searchDune userNo
          { rows := [duneRow], updated := 0, noMatch := 0, autoAccepted := 0,
            events := [] } 0).updated = 0 + 1 ∧
      (processBookSingle ratio0 searchDune userNo
          { rows := [duneRow], updated := 0, noMatch := 0, autoAccepted := 0,
            events := [] } 0).autoAccepted = 0)) :=
  ⟨rfl, rfl, by decide, rfl, rfl,
   claim_C5_thm ratio0 searchDune userSkip searchDune userNo
     { rows := [duneRow], updated := 0, noMatch := 0, autoAccepted := 0,
       events := [] } 0 duneRow duneCand duneCand duneCand [] rfl rfl
     (by decide) rfl rfl⟩

/- A fold preserves any invariant preserved by each step. -/
theorem foldl_inv {α β : Type _} (f : α → β → α) (P : α → Prop)
    (hf : ∀ a b, P a → P (f a b)) : ∀ (l : List β) (a : α), P a → P (l.foldl f a) := by
  intro l
  induction l with
  | nil => intro a ha; exact ha
  | cons x xs ih =>
    intro a ha
    exact ih (f a x) (hf a x ha)

/- A step of the multi-candidate loop never touches a row whose stripped
`Notes` is non-empty, wherever it sits. -/
theorem processBookMulti_keeps (ratio : List Char → List Char → ℚ)
    (searchO : Nat → Except (List Char) (List Candidate))
    (userO : Nat → Nat → Choice) (i : Nat) (book : Row)
    (hn : py_strip book.Notes ≠ []) (st : PState) (j : Nat)
    (hst : st.rows[i]? = some book) :
    (processBookMulti ratio searchO userO st j).rows[i]? = some book := by
  unfold processBookMulti
  cases hj : st.rows[j]? with
  | none => exact hst
  | some bj =>
    by_cases hij : i = j
    · subst hij
      rw [hst] at hj
      injection hj with hj
      subst hj
      simp only [if_pos hn]
      exact hst
    · have hset : ∀ x : Row, (st.rows.set j x)[i]? = some book := by
        intro x
        rw [List.getElem?_set_ne (fun h => hij h.symm)]
        exact hst
      by_cases h1 : py_strip bj.Notes ≠ []
      · simp only [if_pos h1]
        exact hst
      · simp only [if_neg h1]
        by_cases h2 : py_strip bj.Title = []
        · simp only [if_pos h2]
          exact hst
        · simp only [if_neg h2]
          cases search_google_books_multi (searchO j) with
          | nil => exact hset _
          | cons first rest =>
            by_cases h3 : should_auto_accept ratio (py_strip bj.Title)
                (py_strip bj.Author) first.title first.authors = true
            · simp only [if_pos h3]
              exact hset _
            · simp only [if_neg h3]
              cases prompt_for_match (first :: rest) (userO j) 0 with
              | none => exact hset _
              | some sel => exact hset _

/- A step of the single-candidate loop never touches a row whose stripped
`Notes` is non-empty, wherever it sits. -/
theorem processBookSingle_keeps (ratio : List Char → List Char → ℚ)
    (searchO : Nat → Except (List Char) (List Candidate))
    (userO : Nat → List Char) (i : Nat) (book : Row)
    (hn : py_strip book.Notes ≠ []) (st : PState) (j : Nat)
    (hst : st.rows[i]? = some book) :
    (processBookSingle ratio searchO userO st j).rows[i]? = some book := by
  unfold processBookSingle
  cases hj : st.rows[j]? with
  | none => exact hst
  | some bj =>
    by_cases hij : i = j
    · subst hij
      rw [hst] at hj
      injection hj with hj
      subst hj
      simp only [if_pos hn]
      exact hst
    · have hset : ∀ x : Row, (st.rows.set j x)[i]? = some book := by
        intro x
        rw [List.getElem?_set_ne (fun h => hij h.symm)]
        exact hst
      by_cases h1 : py_strip bj.Notes ≠ []
      · simp only [if_pos h1]
        exact hst
      · simp only [if_neg h1]
        by_cases h2 : py_strip bj.Title = []
        · simp only [if_pos h2]
          exact hst
        · simp only [if_neg h2]
          cases search_google_books_single (searchO j) with
          | none => exact hst
          | some best =>
            by_cases h3 : should_auto_accept ratio (py_strip bj.Title)
                (py_strip bj.Author) best.title best.authors = true
            · simp only [if_pos h3]
              exact hset _
            · simp only [if_neg h3]
              by_cases h4 : py_strip (pyLower (userO j)) = ("y").data ∨
                  py_strip (pyLower (userO j)) = ("yes").data
              · simp only [if_pos h4]
                exact hset _
              · simp only [if_neg h4]
                exact hst

set_option maxRecDepth 8000 in
/-- Claim C6 counterexample: a row whose `Notes` field is non-empty at load
time (a single space) is nevertheless processed — the code only skips rows
whose `Notes` strips to non-empty — so its `Notes` is overwritten with the
placeholder note and it is counted as no-match. -/
theorem claim_C6_cex :
    rowWsNotes.Notes ≠ [] ∧
    runWsNotesMulti.rows.map Row.Notes = [placeholder_note] ∧
    runWsNotesMulti.noMatch = 1 := by
  decide

/-- Claim C6 (amended): for every row whose `Notes` field is non-blank
(non-empty after stripping whitespace) at load time, and for any input order,
processing leaves every field of that row unchanged and the row contributes
to no counter: the row's processing step is the identity on the whole state
in both variants, and a full run of either variant returns the row intact. -/
theorem claim_C6_thm (ratio : List Char → List Char → ℚ)
    (searchO : Nat → Except (List Char) (List Candidate))
    (userO : Nat → Nat → Choice) (userOs : Nat → List Char)
    (st : PState) (i : Nat) (book : Row) (books : List Row)
    (hb : st.rows[i]? = some book) (hn : py_strip book.Notes ≠ [])
    (hbooks : books[i]? = some book) :
    processBookMulti ratio searchO userO st i = st ∧
    processBookSingle ratio searchO userOs st i = st ∧
    (process_books_multi ratio searchO userO books).rows[i]? = some book ∧
    (process_books_single ratio searchO userOs books).rows[i]? = some book := by
  refine ⟨?_, ?_, ?_, ?_⟩
  · unfold processBookMulti
    rw [hb]
    simp [hn]
  · unfold processBookSingle
    rw [hb]
    simp [hn]
  · exact foldl_inv _ (fun s => s.rows[i]? = some book)
      (fun s j hs => processBookMulti_keeps ratio searchO userO i book hn s j hs)
      (List.range books.length) (initState books) hbooks
  · exact foldl_inv _ (fun s => s.rows[i]? = some book)
      (fun s j hs => processBookSingle_keeps ratio searchO userOs i book hn s j hs)
      (List.range books.length) (initState books) hbooks

set_option maxRecDepth 8000 in
/-- Claim C6 witness: the amended theorem instantiated at a one-row state
whose row has non-blank `Notes`. -/
theorem claim_C6_witness :
    (initState [rowX]).rows[0]? = some rowX ∧
    py_strip rowX.Notes ≠ [] ∧
    ([rowX] : List Row)[0]? = some rowX ∧
    (processBookMulti ratio0 searchNone userSkip (initState [rowX]) 0 =
        initState [rowX] ∧
    processBookSingle ratio0 searchNone userNo (initState [rowX]) 0 =
        initState [rowX] ∧
    (process_books_multi ratio0 searchNone userSkip [rowX]).rows[0]? =
        some rowX ∧
    (process_books_single ratio0 searchNone userNo [rowX]).rows[0]? =
        some rowX) :=
  ⟨rfl, by decide, rfl,
   claim_C6_thm ratio0 searchNone userSkip userNo (initState [rowX]) 0 rowX
     [rowX] rfl (by decide) rfl⟩

/-- Claim C7: any exception raised during the metadata search is caught
inside the search call — the search returns the empty-result value (empty
list, resp. `none`) and the handler prints an API-error message — and a row
whose search errors is processed exactly like a row whose search returns zero
results, so the per-row loop continues and no search failure terminates the
run (in both variants). -/
theorem claim_C7_thm (ratio : List Char → List Char → ℚ)
    (searchO searchO2 : Nat → Except (List Char) (List Candidate))
    (userO : Nat → Nat → Choice) (userOs : Nat → List Char)
    (st : PState) (i : Nat) (e title : List Char)
    (he : searchO i = Except.error e) (ho : searchO2 i = Except.ok []) :
    search_google_books_multi (Except.error e) = [] ∧
    search_google_books_single (Except.error e) = none ∧
    search_log title (Except.error e) ≠ [] ∧
    processBookMulti ratio searchO userO st i =
      processBookMulti ratio searchO2 userO st i ∧
    processBookSingle ratio searchO userOs st i =
      processBookSingle ratio searchO2 userOs st i := by
  refine ⟨rfl, rfl, by simp [search_log], ?_, ?_⟩
  · unfold processBookMulti
    rw [he, ho]
    rfl
  · unfold processBookSingle
    rw [he, ho]
    rfl

/-- Claim C7 witness: the theorem instantiated at a one-row state with a
concrete erroring search on one side and an empty-result search on the
other. -/
theorem claim_C7_witness :
    searchBoom 0 = Except.error ("boom").data ∧
    searchNone 0 = Except.ok [] ∧
    (search_google_books_multi (Except.error ("boom").data) = [] ∧
    search_google_books_single (Except.error ("boom").data) = none ∧
    search_log ("A").data (Except.error ("boom").data) ≠ [] ∧
    processBookMulti ratio0 searchBoom userSkip (initState [rowA]) 0 =
      processBookMulti ratio0 searchNone userSkip (initState [rowA]) 0 ∧
    processBookSingle ratio0 searchBoom userNo (initState [rowA]) 0 =
      processBookSingle ratio0 searchNone userNo (initState [rowA]) 0) :=
  ⟨rfl, rfl,
   claim_C7_thm ratio0 searchBoom searchNone userSkip userNo (initState [rowA])
     0 ("boom").data ("A").data rfl rfl⟩

set_option maxRecDepth 8000 in
/-- Claim C10: a candidate with an empty description that passes
`shouldAutoAccept` is counted as accepted although no description text is
written: the multi-candidate variant leaves `Notes` as exactly the
attribution footer, the single-candidate variant sets `Notes` to the empty
string — which strips to empty, so a resume pass does not exclude that row
and processes it again. -/
theorem claim_C10_thm :
    runEmptyDescMulti.rows.map Row.Notes = [attribution_footer] ∧
    runEmptyDescMulti.updated = 1 ∧
    runEmptyDescMulti.autoAccepted = 1 ∧
    runEmptyDescSingle.rows.map Row.Notes = [[]] ∧
    runEmptyDescSingle.updated = 1 ∧
    runEmptyDescSingle.autoAccepted = 1 ∧
    runEmptyDescSingle.rows.map (fun r => py_strip r.Notes) = [[]] ∧
    runEmptyDescSingleResume.updated = 1 := by
  decide

/- Splitting with a non-empty accumulated word never yields the empty list. -/
theorem pySplitAux_ne_nil (s : List Char) :
    ∀ acc, acc ≠ [] → pySplitAux s acc ≠ [] := by
  induction s with
  | nil =>
    intro acc h
    simp [pySplitAux, h]
  | cons c cs ih =>
    intro acc h
    by_cases hc : pyIsSpace c = true
    · simp [pySplitAux, hc, h]
    · simp only [pySplitAux, hc]
      exact ih (c :: acc) (by simp)

/- The split of a string is empty exactly when the string is all
whitespace. -/
theorem pySplitAux_nil_iff (s : List Char) :
    pySplitAux s [] = [] ↔ ∀ c ∈ s, pyIsSpace c = true := by
  induction s with
  | nil => simp [pySplitAux]
  | cons c cs ih =>
    by_cases hc : pyIsSpace c = true
    · simp [pySplitAux, hc, ih]
    · simp only [pySplitAux, hc]
      constructor
      · intro h
        exact absurd h (pySplitAux_ne_nil cs [c] (by simp))
      · intro h
        exact absurd (h c (by simp)) (by simp [hc])

/- Every word produced by splitting is non-empty and whitespace-free. -/
theorem pySplitAux_wf (s : List Char) :
    ∀ acc, (∀ c ∈ acc, pyIsSpace c = false) →
      ∀ w ∈ pySplitAux s acc, w ≠ [] ∧ ∀ c ∈ w, pyIsSpace c = false := by
  induction s with
  | nil =>
    intro acc hacc w hw
    by_cases h : acc = []
    · simp [pySplitAux, h] at hw
    · simp only [pySplitAux, if_neg h, List.mem_singleton] at hw
      subst hw
      refine ⟨by simpa using h, ?_⟩
      intro c hc
      exact hacc c (List.mem_reverse.mp hc)
  | cons c cs ih =>
    intro acc hacc w hw
    by_cases hc : pyIsSpace c = true
    · by_cases h : acc = []
      · simp only [pySplitAux, hc, if_pos h, if_true] at hw
        exact ih [] (by simp) w hw
      · simp only [pySplitAux, hc, if_true, if_neg h, List.mem_cons] at hw
        rcases hw with hw | hw
        · subst hw
          refine ⟨by simpa using h, ?_⟩
          intro d hd
          exact hacc d (List.mem_reverse.mp hd)
        · exact ih [] (by simp) w hw
    · simp only [pySplitAux, hc, if_false] at hw
      refine ih (c :: acc) ?_ w hw
      intro d hd
      rcases List.mem_cons.mp hd with rfl | hd
      · simpa using hc
      · exact hacc d hd

/- Every character of a produced word comes from the input or the
accumulator. -/
theorem pySplitAux_mem (s : List Char) :
    ∀ acc w, w ∈ pySplitAux s acc → ∀ c ∈ w, c ∈ s ∨ c ∈ acc := by
  induction s with
  | nil =>
    intro acc w hw c hc
    by_cases h : acc = []
    · simp [pySplitAux, h] at hw
    · simp only [pySplitAux, if_neg h, List.mem_singleton] at hw
      subst hw
      exact Or.inr (List.mem_reverse.mp hc)
  | cons x xs ih =>
    intro acc w hw c hc
    by_cases hx : pyIsSpace x = true
    · by_cases h : acc = []
      · simp only [pySplitAux, hx, if_pos h, if_true] at hw
        rcases ih [] w hw c hc with h' | h'
        · exact Or.inl (List.mem_cons_of_mem x h')
        · simp at h'
      · simp only [pySplitAux, hx, if_true, if_neg h, List.mem_cons] at hw
        rcases hw with hw | hw
        · subst hw
          exact Or.inr (List.mem_reverse.mp hc)
        · rcases ih [] w hw c hc with h' | h'
          · exact Or.inl (List.mem_cons_of_mem x h')
          · simp at h'
    · simp only [pySplitAux, hx, if_false] at hw
      rcases ih (x :: acc) w hw c hc with h' | h'
      · exact Or.inl (List.mem_cons_of_mem x h')
      · rcases List.mem_cons.mp h' with rfl | h'
        · exact Or.inl (List.mem_cons_self c xs)
        · exact Or.inr h'

/- Unfolding equation for `pyJoin` on a cons. -/
theorem pyJoin_cons (w : List Char) (ws : List (List Char)) :
    pyJoin (w :: ws) = if ws = [] then w else w ++ ' ' :: pyJoin ws := by
  cases ws with
  | nil => rfl
  | cons x xs => rfl

/- Every character of a join is a space or comes from one of the words. -/
theorem pyJoin_mem (ws : List (List Char)) :
    ∀ c ∈ pyJoin ws, c = ' ' ∨ ∃ w ∈ ws, c ∈ w := by
  induction ws with
  | nil => simp [pyJoin]
  | cons w tail ih =>
    intro c hc
    rw [pyJoin_cons] at hc
    by_cases h : tail = []
    · rw [if_pos h] at hc
      exact Or.inr ⟨w, by simp, hc⟩
    · rw [if_neg h] at hc
      rcases List.mem_append.mp hc with h' | h'
      · exact Or.inr ⟨w, by simp, h'⟩
      · rcases List.mem_cons.mp h' with rfl | h'
        · exact Or.inl rfl
        · rcases ih c h' with h'' | ⟨v, hv, hcv⟩
          · exact Or.inl h''
          · exact Or.inr ⟨v, List.mem_cons_of_mem w hv, hcv⟩

/- Splitting a whitespace-free word gives back just that word (together with
the pending accumulator). -/
theorem pySplitAux_word (w : List Char) :
    ∀ acc, (∀ c ∈ w, pyIsSpace c = false) →
      pySplitAux w acc =
        if acc.reverse ++ w = [] then [] else [acc.reverse ++ w] := by
  induction w with
  | nil =>
    intro acc _
    by_cases h : acc = []
    · simp [pySplitAux, h]
    · simp [pySplitAux, h]
  | cons c cs ih =>
    intro acc hw
    have hc : pyIsSpace c = false := hw c (by simp)
    simp only [pySplitAux, hc, if_false]
    rw [ih (c :: acc) (fun d hd => hw d (List.mem_cons_of_mem c hd))]
    simp [List.append_assoc]

/- Splitting a whitespace-free word followed by a space and a remainder
yields that word and then the split of the remainder. -/
theorem pySplitAux_word_space (w : List Char) :
    ∀ (t : List Char) acc, (∀ c ∈ w, pyIsSpace c = false) →
      acc.reverse ++ w ≠ [] →
      pySplitAux (w ++ ' ' :: t) acc =
        (acc.reverse ++ w) :: pySplitAux t [] := by
  induction w with
  | nil =>
    intro t acc _ hne
    have hacc : acc ≠ [] := by
      intro h
      exact hne (by simp [h])
    simp [pySplitAux, hacc, pyIsSpace]
  | cons c cs ih =>
    intro t acc hw hne
    have hc : pyIsSpace c = false := hw c (by simp)
    simp only [List.cons_append, pySplitAux, hc, Bool.false_eq_true, if_false,
      List.append_eq]
    rw [ih t (c :: acc) (fun d hd => hw d (List.mem_cons_of_mem c hd))
      (by simp)]
    simp [List.append_assoc]

/- Joining well-formed words and re-splitting is the identity. -/
theorem pySplit_pyJoin (ws : List (List Char))
    (hws : ∀ w ∈ ws, w ≠ [] ∧ ∀ c ∈ w, pyIsSpace c = false) :
    pySplit (pyJoin ws) = ws := by
  induction ws with
  | nil => rfl
  | cons w tail ih =>
    cases tail with
    | nil =>
      have hw := hws w (by simp)
      rw [pyJoin_cons, if_pos rfl]
      unfold pySplit
      rw [pySplitAux_word w [] hw.2]
      simp [hw.1]
    | cons x xs =>
      have hw := hws w (by simp)
      rw [pyJoin_cons, if_neg (by simp)]
      unfold pySplit
      rw [pySplitAux_word_space w (pyJoin (x :: xs)) [] hw.2 (by simpa using hw.1)]
      have := ih (fun v hv => hws v (List.mem_cons_of_mem w hv))
      unfold pySplit at this
      rw [this]
      simp

/- Code point of `Char.ofNat` at a valid scalar value. -/
theorem char_toNat_ofNat_valid {n : Nat} (h : n.isValidChar) :
    (Char.ofNat n).toNat = n := by
  rw [Char.ofNat, dif_pos h]
  rfl

/- `Char.toLower` on a basic latin capital letter. -/
theorem toLower_of_upper (c : Char) (h : c.toNat ≥ 65 ∧ c.toNat ≤ 90) :
    c.toLower = Char.ofNat (c.toNat + 32) := by
  simp only [Char.toLower]
  rw [if_pos h]

/- `Char.toLower` elsewhere is the identity. -/
theorem toLower_of_not_upper (c : Char) (h : ¬(c.toNat ≥ 65 ∧ c.toNat ≤ 90)) :
    c.toLower = c := by
  simp only [Char.toLower]
  rw [if_neg h]

/- `Char.toLower` is idempotent. -/
theorem toLower_toLower (c : Char) :
    Char.toLower (Char.toLower c) = Char.toLower c := by
  by_cases h : c.toNat ≥ 65 ∧ c.toNat ≤ 90
  · rw [toLower_of_upper c h]
    apply toLower_of_not_upper
    rw [char_toNat_ofNat_valid (Or.inl (by omega))]
    omega
  · rw [toLower_of_not_upper c h, toLower_of_not_upper c h]

/- `Char.toLower` only produces basic latin lower-case letters or leaves its
argument unchanged, so a character outside `a`-`z` in the image was already
there. -/
theorem toLower_eq_target (c d : Char)
    (hd : ¬(d.toNat ≥ 97 ∧ d.toNat ≤ 122)) (h : c.toLower = d) : c = d := by
  by_cases hu : c.toNat ≥ 65 ∧ c.toNat ≤ 90
  · exfalso
    rw [toLower_of_upper c hu] at h
    have := congrArg Char.toNat h
    rw [char_toNat_ofNat_valid (Or.inl (by omega))] at this
    exact hd (by omega)
  · rw [toLower_of_not_upper c hu] at h
    exact h

/-- Claim C9: `normalize_title` is idempotent — normalizing an
already-normalized title gives it back unchanged. -/
theorem claim_C9 (x : List Char) :
    normalize_title (normalize_title x) = normalize_title x := by
  by_cases hx : x = []
  · subst hx
    rfl
  · have hy : normalize_title x = pyJoin (pySplit (pyLower
        ((x.takeWhile (fun c => ¬(c = ':'))).takeWhile
          (fun c => ¬(c = ';'))))) := by
      rw [normalize_title, if_neg hx]
    have hbq : ∀ c ∈ (x.takeWhile (fun c => ¬(c = ':'))).takeWhile
        (fun c => ¬(c = ';')), ¬(c = ':') ∧ ¬(c = ';') := by
      intro c hc
      have h2 : ¬(c = ';') := by simpa using List.mem_takeWhile_imp hc
      have hc' : c ∈ x.takeWhile (fun c => ¬(c = ':')) :=
        (List.takeWhile_sublist _).subset hc
      have h1 : ¬(c = ':') := by simpa using List.mem_takeWhile_imp hc'
      exact ⟨h1, h2⟩
    have hmem : ∀ c ∈ normalize_title x, c = ' ' ∨
        c ∈ pyLower ((x.takeWhile (fun c => ¬(c = ':'))).takeWhile
          (fun c => ¬(c = ';'))) := by
      intro c hc
      rw [hy] at hc
      rcases pyJoin_mem _ c hc with h | ⟨w, hw, hcw⟩
      · exact Or.inl h
      · right
        rcases pySplitAux_mem _ [] w hw c hcw with h' | h'
        · exact h'
        · simp at h'
    have hchar : ∀ c ∈ normalize_title x,
        Char.toLower c = c ∧ ¬(c = ':') ∧ ¬(c = ';') := by
      intro c hc
      rcases hmem c hc with rfl | h
      · exact ⟨by decide, by decide, by decide⟩
      · rcases List.mem_map.mp h with ⟨c0, hc0, rfl⟩
        refine ⟨toLower_toLower c0, ?_, ?_⟩
        · intro he
          exact (hbq c0 hc0).1 (toLower_eq_target c0 ':' (by decide) he)
        · intro he
          exact (hbq c0 hc0).2 (toLower_eq_target c0 ';' (by decide) he)
    by_cases hy0 : normalize_title x = []
    · rw [normalize_title, if_pos hy0, hy0]
    · rw [normalize_title, if_neg hy0]
      have h1 : (normalize_title x).takeWhile (fun c => ¬(c = ':')) =
          normalize_title x :=
        List.takeWhile_eq_self_iff.mpr
          (fun c hc => by simpa using (hchar c hc).2.1)
      rw [h1]
      have h2 : (normalize_title x).takeWhile (fun c => ¬(c = ';')) =
          normalize_title x :=
        List.takeWhile_eq_self_iff.mpr
          (fun c hc => by simpa using (hchar c hc).2.2)
      rw [h2]
      have h3 : pyLower (normalize_title x) = normalize_title x := by
        unfold pyLower
        have := List.map_congr_left (l := normalize_title x)
          (f := Char.toLower) (g := id) (fun c hc => (hchar c hc).1)
        simpa using this
      rw [h3]
      conv_lhs => rw [hy]
      have hwf : ∀ w ∈ pySplit (pyLower
          ((x.takeWhile (fun c => ¬(c = ':'))).takeWhile
            (fun c => ¬(c = ';')))),
          w ≠ [] ∧ ∀ c ∈ w, pyIsSpace c = false := by
        unfold pySplit
        exact pySplitAux_wf _ [] (by simp)
      rw [pySplit_pyJoin _ hwf]
      exact hy.symm

/- Truncating at the first colon and then at the first semicolon equals
truncating at the first colon-or-semicolon. -/
theorem takeWhile_colon_semicolon (x : List Char) :
    (x.takeWhile (fun c => ¬(c = ':'))).takeWhile (fun c => ¬(c = ';')) =
      x.takeWhile (fun c => ¬(c = ':' ∨ c = ';')) := by
  rw [List.takeWhile_takeWhile]
  congr 1
  funext a
  simp only [decide_eq_true_eq]
  rw [decide_eq_decide]
  tauto

/- Collapsing inside a run yields the empty string exactly for all-whitespace
input. -/
theorem collapseAux_true_nil_iff (s : List Char) :
    collapseAux true s = [] ↔ ∀ c ∈ s, pyIsSpace c = true := by
  induction s with
  | nil => simp [collapseAux]
  | cons c cs ih =>
    by_cases hc : pyIsSpace c = true
    · simp [collapseAux, hc, ih]
    · simp [collapseAux, hc]

/- The head of a collapse started inside a run is never whitespace. -/
theorem collapseAux_true_head (s : List Char) :
    ∀ h t, collapseAux true s = h :: t → pyIsSpace h = false := by
  induction s with
  | nil =>
    intro h t he
    simp [collapseAux] at he
  | cons c cs ih =>
    intro h t he
    by_cases hc : pyIsSpace c = true
    · rw [show collapseAux true (c :: cs) = collapseAux true cs by
        simp [collapseAux, hc]] at he
      exact ih h t he
    · rw [show collapseAux true (c :: cs) = c :: collapseAux false cs by
        simp [collapseAux, hc]] at he
      injection he with he1 _
      subst he1
      simpa using hc

/- Stripping leading whitespace from a collapse is collapsing inside a
run. -/
theorem dropWhile_collapseAux_false (s : List Char) :
    (collapseAux false s).dropWhile pyIsSpace = collapseAux true s := by
  cases s with
  | nil => rfl
  | cons c cs =>
    by_cases hc : pyIsSpace c = true
    · rw [show collapseAux false (c :: cs) = ' ' :: collapseAux true cs by
        simp [collapseAux, hc]]
      rw [show collapseAux true (c :: cs) = collapseAux true cs by
        simp [collapseAux, hc]]
      rw [List.dropWhile_cons_of_pos (by decide)]
      cases hX : collapseAux true cs with
      | nil => simp
      | cons h t =>
        exact List.dropWhile_cons_of_neg
          (by simp [collapseAux_true_head cs h t hX])
    · rw [show collapseAux false (c :: cs) = c :: collapseAux false cs by
        simp [collapseAux, hc]]
      rw [show collapseAux true (c :: cs) = c :: collapseAux false cs by
        simp [collapseAux, hc]]
      exact List.dropWhile_cons_of_neg (by simpa using hc)

/- Right-trimming gives the empty string exactly for all-whitespace input. -/
theorem rightTrim_nil_iff (x : List Char) :
    rightTrim x = [] ↔ ∀ c ∈ x, pyIsSpace c = true := by
  unfold rightTrim
  simp [List.dropWhile_eq_nil_iff]

/- Right-trimming past a non-whitespace head. -/
theorem rightTrim_cons_not_space (a : Char) (x : List Char)
    (ha : pyIsSpace a = false) : rightTrim (a :: x) = a :: rightTrim x := by
  unfold rightTrim
  rw [List.reverse_cons, List.dropWhile_append]
  by_cases h : (x.reverse.dropWhile pyIsSpace).isEmpty
  · rw [if_pos h]
    have h' : x.reverse.dropWhile pyIsSpace = [] := by
      simpa [List.isEmpty_iff] using h
    simp [List.dropWhile_cons, ha, h']
  · rw [if_neg h]
    simp [List.reverse_append]

/- Right-trimming past a whitespace head. -/
theorem rightTrim_cons_space (a : Char) (x : List Char)
    (ha : pyIsSpace a = true) :
    rightTrim (a :: x) =
      if rightTrim x = [] then [] else a :: rightTrim x := by
  unfold rightTrim
  rw [List.reverse_cons, List.dropWhile_append]
  by_cases h : (x.reverse.dropWhile pyIsSpace).isEmpty
  · have h' : x.reverse.dropWhile pyIsSpace = [] := by
      simpa [List.isEmpty_iff] using h
    rw [if_pos h]
    simp [List.dropWhile_cons, ha, h']
  · have h' : x.reverse.dropWhile pyIsSpace ≠ [] := by
      simpa [List.isEmpty_iff] using h
    rw [if_neg h]
    rw [if_neg (by simpa using h')]
    simp [List.reverse_append]

/- Joining the split of a string equals right-trimming its collapse: part 1
is the statement with a pending word in the accumulator, part 2 without. -/
theorem pyJoin_split_collapse :
    ∀ n (s : List Char), s.length ≤ n →
      ((∀ acc, acc ≠ [] → (∀ c ∈ acc, pyIsSpace c = false) →
          pyJoin (pySplitAux s acc) =
            acc.reverse ++ rightTrim (collapseAux false s)) ∧
        pyJoin (pySplitAux s []) = rightTrim (collapseAux true s)) := by
  intro n
  induction n with
  | zero =>
    intro s hs
    have h0 : s = [] := List.length_eq_zero.mp (Nat.le_zero.mp hs)
    subst h0
    constructor
    · intro acc hacc _
      simp [pySplitAux, hacc, collapseAux, rightTrim, pyJoin]
    · simp [pySplitAux, collapseAux, rightTrim, pyJoin]
  | succ n ih =>
    intro s hs
    cases s with
    | nil =>
      constructor
      · intro acc hacc _
        simp [pySplitAux, hacc, collapseAux, rightTrim, pyJoin]
      · simp [pySplitAux, collapseAux, rightTrim, pyJoin]
    | cons c cs =>
      have hcs : cs.length ≤ n := by
        simp only [List.length_cons] at hs
        omega
      have ihcs := ih cs hcs
      constructor
      · intro acc hacc haccwf
        by_cases hc : pyIsSpace c = true
        · rw [show pySplitAux (c :: cs) acc = acc.reverse :: pySplitAux cs []
            by simp [pySplitAux, hc, hacc]]
          rw [pyJoin_cons]
          rw [show collapseAux false (c :: cs) = ' ' :: collapseAux true cs by
            simp [collapseAux, hc]]
          rw [rightTrim_cons_space ' ' _ (by decide)]
          by_cases hnil : pySplitAux cs [] = []
          · rw [if_pos hnil]
            have hall := (pySplitAux_nil_iff cs).mp hnil
            have hX : collapseAux true cs = [] :=
              (collapseAux_true_nil_iff cs).mpr hall
            rw [hX]
            simp [rightTrim]
          · rw [if_neg hnil]
            have hall : ¬ ∀ d ∈ cs, pyIsSpace d = true :=
              fun h => hnil ((pySplitAux_nil_iff cs).mpr h)
            have hX : collapseAux true cs ≠ [] :=
              fun h => hall ((collapseAux_true_nil_iff cs).mp h)
            obtain ⟨h0, t0, hX0⟩ : ∃ h0 t0, collapseAux true cs = h0 :: t0 := by
              cases hXc : collapseAux true cs with
              | nil => exact absurd hXc hX
              | cons h0 t0 => exact ⟨h0, t0, rfl⟩
            have hh0 : pyIsSpace h0 = false := collapseAux_true_head cs h0 t0 hX0
            rw [if_neg (by
              rw [hX0, rightTrim_cons_not_space h0 t0 hh0]
              simp)]
            rw [ihcs.2]
        · rw [show pySplitAux (c :: cs) acc = pySplitAux cs (c :: acc) by
            simp [pySplitAux, hc]]
          rw [ihcs.1 (c :: acc) (by simp) (by
            intro d hd
            rcases List.mem_cons.mp hd with rfl | hd
            · simpa using hc
            · exact haccwf d hd)]
          rw [show collapseAux false (c :: cs) = c :: collapseAux false cs by
            simp [collapseAux, hc]]
          rw [rightTrim_cons_not_space c _ (by simpa using hc)]
          simp
      · by_cases hc : pyIsSpace c = true
        · rw [show pySplitAux (c :: cs) [] = pySplitAux cs [] by
            simp [pySplitAux, hc]]
          rw [show collapseAux true (c :: cs) = collapseAux true cs by
            simp [collapseAux, hc]]
          exact ihcs.2
        · rw [show pySplitAux (c :: cs) [] = pySplitAux cs [c] by
            simp [pySplitAux, hc]]
          rw [ihcs.1 [c] (by simp) (by
            intro d hd
            rcases List.mem_cons.mp hd with rfl | hd
            · simpa using hc
            · simp at hd)]
          rw [show collapseAux true (c :: cs) = c :: collapseAux false cs by
            simp [collapseAux, hc]]
          rw [rightTrim_cons_not_space c _ (by simpa using hc)]
          simp

/- `' '.join(s.split())` equals collapse-runs-then-strip. -/
theorem pyJoin_pySplit_eq_strip_collapse (s : List Char) :
    pyJoin (pySplit s) = py_strip (collapseAux false s) := by
  have h := (pyJoin_split_collapse s.length s (Nat.le_refl _)).2
  unfold pySplit
  rw [h]
  unfold py_strip rightTrim
  rw [dropWhile_collapseAux_false]

/-- Claim C8: `normalize_title` returns the empty string on empty input and
otherwise keeps only the prefix before the first colon or semicolon,
lowercases it, collapses every run of whitespace to a single space and trims
both ends — it coincides with the spec-modelled `normalizeSpec` — and
`normalize("Foo: A Subtitle")` equals `normalize("foo")`. -/
theorem claim_C8 :
    normalize_title [] = [] ∧
    (∀ t, normalize_title t = normalizeSpec t) ∧
    normalize_title ("Foo: A Subtitle").data =
      normalize_title ("foo").data := by
  refine ⟨rfl, ?_, by decide⟩
  intro t
  by_cases ht : t = []
  · subst ht
    rfl
  · rw [normalize_title, if_neg ht, normalizeSpec, if_neg ht,
      takeWhile_colon_semicolon]
    exact pyJoin_pySplit_eq_strip_collapse _
